import Mathlib

/-!
# Verification of the NutriVision YUV420 → RGB conversion kernel

Shallow embedding of `android/app/src/main/cpp/native_image_processor.cpp`
(together with the `clamp255` helper from `yuv_to_rgb.h`).

Modelling choices:
* A plane (`const uint8_t*`) is a total function `ℤ → Fin 256`: the C type
  guarantees every loaded byte is in `[0, 255]`; indices are C `int`s.
* The output buffer (`uint8_t*`) is a function `ℤ → ℕ`; a store is a
  `Function.update`.  All machine-`int` arithmetic on indices is exact here
  (the C code only forms small products that cannot overflow 32-bit `int`
  for the geometries under consideration).
* C `int` division truncates toward zero: `Int.tdiv`.
* The scalar path multiplies an `int` by a `float` literal and casts back to
  `int`.  This is IEEE-754 binary32 arithmetic: the literal is the nearest
  binary32 value, the product is rounded to nearest (ties to even) and the
  cast truncates toward zero.  `f32mulTrunc m e n` computes exactly this for
  a constant whose binary32 value is `m / 2^e` (with `2^23 ≤ m < 2^24`) and
  an integer `n` with `|m * n| < 2^31`, which covers all four constants of
  the kernel against `n ∈ [-128, 127]`.
* NEON 16-bit lanes: `vmulq_s16`/`vaddq_s16`/`vsubq_s16` wrap modulo `2^16`
  (`toS16`), `vshrq_n_s16 _ 8` is an arithmetic shift (`Int.fdiv _ 256`),
  and `vqmovun_s16` saturates a signed 16-bit lane into `[0, 255]`.
-/

abbrev Plane : Type := ℤ → Fin 256

abbrev Buf : Type := ℤ → ℕ

/-- `yuv_to_rgb.h`: `clamp255(int value)` =
`(uint8_t)(value < 0 ? 0 : (value > 255 ? 255 : value))`. -/
def clamp255 (value : ℤ) : ℕ :=
  if value < 0 then 0 else if value > 255 then 255 else value.toNat

/-! ## Exact binary32 model for the scalar path -/

/-- Significand of the binary32 literal `1.402f`: `1.402f = 11760828 / 2^23`. -/
def c1402 : ℤ := 11760828

/-- Significand of `0.344136f`: `0.344136f = 11547288 / 2^25`. -/
def c0344136 : ℤ := 11547288

/-- Significand of `0.714136f`: `0.714136f = 11981214 / 2^24`. -/
def c0714136 : ℤ := 11981214

/-- Significand of `1.772f`: `1.772f = 14864613 / 2^23`. -/
def c1772 : ℤ := 14864613

/-- Number of low bits that must be rounded away so that `a < 2^31` fits in a
24-bit significand. -/
def sig24shift (a : ℕ) : ℕ :=
  if a < 2 ^ 24 then 0
  else if a < 2 ^ 25 then 1
  else if a < 2 ^ 26 then 2
  else if a < 2 ^ 27 then 3
  else if a < 2 ^ 28 then 4
  else if a < 2 ^ 29 then 5
  else if a < 2 ^ 30 then 6
  else 7

/-- Round `a / 2^s` to the nearest integer, ties to even. -/
def rne2 (a : ℤ) (s : ℕ) : ℤ :=
  let p : ℤ := 2 ^ s
  let q : ℤ := Int.fdiv a p
  let r : ℤ := a - q * p
  let h : ℤ := 2 ^ (s - 1)
  if h < r then q + 1
  else if r < h then q
  else if q % 2 = 0 then q else q + 1

/-- `(int)(c * n)` in C where `c` is the binary32 value `m / 2^e` and `n` an
integer with `|m * n| < 2^31`: round the exact product to the nearest binary32
(24-bit significand, ties to even), then truncate toward zero. -/
def f32mulTrunc (m : ℤ) (e : ℕ) (n : ℤ) : ℤ :=
  let a : ℤ := m * n
  let s : ℕ := sig24shift a.natAbs
  Int.tdiv (rne2 a s * 2 ^ s) (2 ^ e)

/-! ## Scalar per-channel arithmetic (shared by the scalar path and the
NEON trailing-column loop, which repeats the same source expressions) -/

/-- `y + (int)(1.402f * (v - 128))`. -/
def scalarR (y v : ℕ) : ℤ := (y : ℤ) + f32mulTrunc c1402 23 ((v : ℤ) - 128)

/-- `y - (int)(0.344136f * (u - 128)) - (int)(0.714136f * (v - 128))`. -/
def scalarG (y u v : ℕ) : ℤ :=
  (y : ℤ) - f32mulTrunc c0344136 25 ((u : ℤ) - 128)
    - f32mulTrunc c0714136 24 ((v : ℤ) - 128)

/-- `y + (int)(1.772f * (u - 128))`. -/
def scalarB (y u : ℕ) : ℤ := (y : ℤ) + f32mulTrunc c1772 23 ((u : ℤ) - 128)

/-- Three consecutive byte stores `out[idx] = r; out[idx+1] = g; out[idx+2] = b`. -/
def writeRgb (buf : Buf) (idx : ℤ) (r g b : ℕ) : Buf :=
  Function.update (Function.update (Function.update buf idx r) (idx + 1) g) (idx + 2) b

/-! ## `convertYuv420ToRgbScalar` -/

/-- Body of the scalar double loop for one pixel `(row, col)`; the state is
the output buffer together with the running `rgbIndex`. -/
def scalarStep (yPlane uPlane vPlane : Plane)
    (yRowStride uvRowStride uvPixelStride row col : ℤ) (st : Buf × ℤ) : Buf × ℤ :=
  let yIndex : ℤ := row * yRowStride + col
  let uvIndex : ℤ := (Int.tdiv row 2) * uvRowStride + (Int.tdiv col 2) * uvPixelStride
  let y : ℕ := (yPlane yIndex).val % 256
  let u : ℕ := (uPlane uvIndex).val % 256
  let v : ℕ := (vPlane uvIndex).val % 256
  (writeRgb st.1 st.2 (clamp255 (scalarR y v)) (clamp255 (scalarG y u v))
    (clamp255 (scalarB y u)), st.2 + 3)

/-- `convertYuv420ToRgbScalar`: row-major double loop, `rgbIndex` starting at 0.
A C loop `for (i = 0; i < n; i++)` over an `int` bound executes exactly
`n.toNat` times with `i = 0, 1, …`. -/
def convertYuv420ToRgbScalar (yPlane uPlane vPlane : Plane) (rgbOutput : Buf)
    (width height yRowStride uvRowStride uvPixelStride : ℤ) : Buf :=
  ((List.range height.toNat).foldl (fun st (r : ℕ) =>
      (List.range width.toNat).foldl (fun st2 (c : ℕ) =>
        scalarStep yPlane uPlane vPlane yRowStride uvRowStride uvPixelStride
          (r : ℤ) (c : ℤ) st2) st)
    (rgbOutput, 0)).1

/-! ## NEON 16-bit lane primitives -/

/-- Wrap an integer into the signed 16-bit range (two's-complement). -/
def toS16 (a : ℤ) : ℤ := (a + 32768) % 65536 - 32768

/-- `vmulq_s16`: element product, low 16 bits. -/
def mulS16 (a b : ℤ) : ℤ := toS16 (a * b)

/-- `vaddq_s16`: wrapping 16-bit addition. -/
def addS16 (a b : ℤ) : ℤ := toS16 (a + b)

/-- `vsubq_s16`: wrapping 16-bit subtraction. -/
def subS16 (a b : ℤ) : ℤ := toS16 (a - b)

/-- `vshrq_n_s16(a, 8)`: arithmetic shift right by 8 of a 16-bit lane. -/
def shr8S16 (a : ℤ) : ℤ := Int.fdiv a 256

/-- `vqmovun_s16`: saturate a signed 16-bit lane to unsigned 8-bit. -/
def vqmovun (a : ℤ) : ℕ :=
  if a < 0 then 0 else if a > 255 then 255 else a.toNat

/-- NEON red lane: `vqmovun(y + ((359 * (v - 128)) >> 8))` in wrapping 16-bit. -/
def neonR (y v : ℕ) : ℕ :=
  vqmovun (addS16 (y : ℤ) (shr8S16 (mulS16 359 (subS16 (v : ℤ) 128))))

/-- NEON green lane: `vqmovun((y - ((88*(u-128))>>8)) - ((183*(v-128))>>8))`. -/
def neonG (y u v : ℕ) : ℕ :=
  vqmovun (subS16 (subS16 (y : ℤ) (shr8S16 (mulS16 88 (subS16 (u : ℤ) 128))))
    (shr8S16 (mulS16 183 (subS16 (v : ℤ) 128))))

/-- NEON blue lane: `vqmovun(y + ((454 * (u - 128)) >> 8))`. -/
def neonB (y u : ℕ) : ℕ :=
  vqmovun (addS16 (y : ℤ) (shr8S16 (mulS16 454 (subS16 (u : ℤ) 128))))

/-! ## `convertYuv420ToRgbNeon` -/

/-- One full 8-pixel lane block starting at column `col0` (a multiple of 8):
loads `u_vals[i]`/`v_vals[i]` at `uvRowOffset + (col0/2 + i) * uvPixelStride`
for `i < 4`, duplicates sample `i` onto lanes `2i` and `2i+1`, computes the
three channel lanes and stores them interleaved at
`rgbRowOffset + col0*3 + 3*j + {0,1,2}` (`vst3_u8`). -/
def neonVecBlock (yPlane uPlane vPlane : Plane)
    (uvPixelStride rgbRowOffset yRowOffset uvRowOffset col0 : ℤ) (buf : Buf) : Buf :=
  (List.range 8).foldl (fun b (j : ℕ) =>
    let y : ℕ := (yPlane (yRowOffset + col0 + (j : ℤ))).val
    let uvIndex : ℤ := uvRowOffset + (Int.tdiv col0 2 + ((j / 2 : ℕ) : ℤ)) * uvPixelStride
    let u : ℕ := (uPlane uvIndex).val
    let v : ℕ := (vPlane uvIndex).val
    writeRgb b (rgbRowOffset + col0 * 3 + 3 * (j : ℤ)) (neonR y v) (neonG y u v) (neonB y u))
    buf

/-- Trailing-column body of the NEON path (`for (; col < width; col++)`):
same arithmetic as the scalar path, explicit output offset. -/
def neonTailStep (yPlane uPlane vPlane : Plane)
    (uvPixelStride rgbRowOffset yRowOffset uvRowOffset col : ℤ) (buf : Buf) : Buf :=
  let y : ℕ := (yPlane (yRowOffset + col)).val
  let uvIndex : ℤ := uvRowOffset + (Int.tdiv col 2) * uvPixelStride
  let u : ℕ := (uPlane uvIndex).val
  let v : ℕ := (vPlane uvIndex).val
  writeRgb buf (rgbRowOffset + col * 3) (clamp255 (scalarR y v))
    (clamp255 (scalarG y u v)) (clamp255 (scalarB y u))

/-- One row of the NEON path: `width.toNat / 8` full 8-lane blocks at
`col = 0, 8, 16, …`, then `width.toNat % 8` trailing columns. -/
def neonRow (yPlane uPlane vPlane : Plane)
    (width yRowStride uvRowStride uvPixelStride row : ℤ) (buf : Buf) : Buf :=
  let rgbRowOffset : ℤ := row * width * 3
  let yRowOffset : ℤ := row * yRowStride
  let uvRowOffset : ℤ := (Int.tdiv row 2) * uvRowStride
  let nblocks : ℕ := width.toNat / 8
  let buf1 : Buf := (List.range nblocks).foldl (fun b (k : ℕ) =>
    neonVecBlock yPlane uPlane vPlane uvPixelStride rgbRowOffset yRowOffset uvRowOffset
      ((8 * k : ℕ) : ℤ) b) buf
  (List.range (width.toNat % 8)).foldl (fun b (t : ℕ) =>
    neonTailStep yPlane uPlane vPlane uvPixelStride rgbRowOffset yRowOffset uvRowOffset
      ((8 * nblocks + t : ℕ) : ℤ) b) buf1

/-- `convertYuv420ToRgbNeon`: loop over rows. -/
def convertYuv420ToRgbNeon (yPlane uPlane vPlane : Plane) (rgbOutput : Buf)
    (width height yRowStride uvRowStride uvPixelStride : ℤ) : Buf :=
  (List.range height.toNat).foldl (fun b (r : ℕ) =>
    neonRow yPlane uPlane vPlane width yRowStride uvRowStride uvPixelStride (r : ℤ) b)
    rgbOutput

/-- `convertYuv420ToRgb`: dispatch on the compile-time `USE_NEON` flag. -/
def convertYuv420ToRgb (useNeon : Bool) (yPlane uPlane vPlane : Plane) (rgbOutput : Buf)
    (width height yRowStride uvRowStride uvPixelStride : ℤ) : Buf :=
  if useNeon then
    convertYuv420ToRgbNeon yPlane uPlane vPlane rgbOutput
      width height yRowStride uvRowStride uvPixelStride
  else
    convertYuv420ToRgbScalar yPlane uPlane vPlane rgbOutput
      width height yRowStride uvRowStride uvPixelStride

/-- The JNI entry point `convertYuvToRgb`: `GetDirectBufferAddress` may yield a
null pointer, modelled by `Option Plane`; on any null it returns `nullptr`
(`none`) before allocating or converting anything.  Otherwise it allocates a
`width*height*3`-byte array (uninitialised `new uint8_t[]`, modelled as a
zero-filled scratch buffer), runs the conversion and copies the result out. -/
def convertYuvToRgb (useNeon : Bool) (yBuf uBuf vBuf : Option Plane)
    (width height yRowStride uvRowStride uvPixelStride : ℤ) : Option (List ℕ) :=
  match yBuf, uBuf, vBuf with
  | some yPlane, some uPlane, some vPlane =>
    let rgbSize : ℤ := width * height * 3
    let out : Buf := convertYuv420ToRgb useNeon yPlane uPlane vPlane (fun _ => 0)
      width height yRowStride uvRowStride uvPixelStride
    some ((List.range rgbSize.toNat).map (fun (k : ℕ) => out (k : ℤ)))
  | _, _, _ => none

/-- A constant plane, used for concrete test frames. -/
def constPlane (n : Fin 256) : Plane := fun _ => n

/-! ## Buffer write lemmas -/

theorem writeRgb_ne (buf : Buf) (idx i : ℤ) (r g b : ℕ)
    (h0 : i ≠ idx) (h1 : i ≠ idx + 1) (h2 : i ≠ idx + 2) :
    writeRgb buf idx r g b i = buf i := by
  unfold writeRgb
  rw [Function.update_noteq h2, Function.update_noteq h1, Function.update_noteq h0]

theorem writeRgb_at0 (buf : Buf) (idx : ℤ) (r g b : ℕ) :
    writeRgb buf idx r g b idx = r := by
  unfold writeRgb
  rw [Function.update_noteq (by omega), Function.update_noteq (by omega),
    Function.update_same]

theorem writeRgb_at1 (buf : Buf) (idx : ℤ) (r g b : ℕ) :
    writeRgb buf idx r g b (idx + 1) = g := by
  unfold writeRgb
  rw [Function.update_noteq (by omega), Function.update_same]

theorem writeRgb_at2 (buf : Buf) (idx : ℤ) (r g b : ℕ) :
    writeRgb buf idx r g b (idx + 2) = b := by
  unfold writeRgb
  rw [Function.update_same]

/-! ## Characterization of the scalar path -/

section ScalarSpec

variable (yP uP vP : Plane) (ys uvs ps : ℤ)

/-- The inner (column) loop of the scalar path. -/
def scalarColsFold (row : ℤ) (n : ℕ) (st : Buf × ℤ) : Buf × ℤ :=
  (List.range n).foldl (fun st2 (c : ℕ) =>
    scalarStep yP uP vP ys uvs ps row (c : ℤ) st2) st

/-- The outer (row) loop of the scalar path. -/
def scalarRowsFold (w : ℤ) (m : ℕ) (st : Buf × ℤ) : Buf × ℤ :=
  (List.range m).foldl (fun st (r : ℕ) =>
    scalarColsFold yP uP vP ys uvs ps (r : ℤ) w.toNat st) st

theorem convertScalar_eq_rowsFold (buf : Buf) (w h : ℤ) :
    convertYuv420ToRgbScalar yP uP vP buf w h ys uvs ps =
      (scalarRowsFold yP uP vP ys uvs ps w h.toNat (buf, 0)).1 := rfl

theorem scalarColsFold_succ (row : ℤ) (k : ℕ) (st : Buf × ℤ) :
    scalarColsFold yP uP vP ys uvs ps row (k + 1) st =
      scalarStep yP uP vP ys uvs ps row (k : ℤ)
        (scalarColsFold yP uP vP ys uvs ps row k st) := by
  unfold scalarColsFold
  rw [List.range_succ, List.foldl_append, List.foldl_cons, List.foldl_nil]

theorem scalarColsFold_snd (row : ℤ) (n : ℕ) (st : Buf × ℤ) :
    (scalarColsFold yP uP vP ys uvs ps row n st).2 = st.2 + 3 * n := by
  induction n with
  | zero => simp [scalarColsFold]
  | succ k ih =>
    rw [scalarColsFold_succ]
    simp only [scalarStep, ih]
    push_cast
    ring

theorem scalarColsFold_frame (row : ℤ) (n : ℕ) (st : Buf × ℤ) (i : ℤ)
    (hi : i < st.2 ∨ st.2 + 3 * n ≤ i) :
    (scalarColsFold yP uP vP ys uvs ps row n st).1 i = st.1 i := by
  induction n with
  | zero => simp [scalarColsFold]
  | succ k ih =>
    rw [scalarColsFold_succ]
    have hsnd := scalarColsFold_snd yP uP vP ys uvs ps row k st
    simp only [scalarStep]
    rw [writeRgb_ne _ _ _ _ _ _ (by omega) (by omega) (by omega)]
    exact ih (by omega)

theorem scalarColsFold_get (row : ℤ) (n : ℕ) (st : Buf × ℤ) (j : ℕ) (hj : j < n) :
    (scalarColsFold yP uP vP ys uvs ps row n st).1 (st.2 + 3 * j) =
        clamp255 (scalarR (yP (row * ys + (j : ℤ))).val
          (vP ((Int.tdiv row 2) * uvs + (Int.tdiv (j : ℤ) 2) * ps)).val) ∧
      (scalarColsFold yP uP vP ys uvs ps row n st).1 (st.2 + 3 * j + 1) =
        clamp255 (scalarG (yP (row * ys + (j : ℤ))).val
          (uP ((Int.tdiv row 2) * uvs + (Int.tdiv (j : ℤ) 2) * ps)).val
          (vP ((Int.tdiv row 2) * uvs + (Int.tdiv (j : ℤ) 2) * ps)).val) ∧
      (scalarColsFold yP uP vP ys uvs ps row n st).1 (st.2 + 3 * j + 2) =
        clamp255 (scalarB (yP (row * ys + (j : ℤ))).val
          (uP ((Int.tdiv row 2) * uvs + (Int.tdiv (j : ℤ) 2) * ps)).val) := by
  induction n with
  | zero => omega
  | succ k ih =>
    rw [scalarColsFold_succ]
    have hsnd := scalarColsFold_snd yP uP vP ys uvs ps row k st
    rcases Nat.lt_or_ge j k with hjk | hjk
    · have := ih hjk
      simp only [scalarStep]
      refine ⟨?_, ?_, ?_⟩ <;>
        rw [writeRgb_ne _ _ _ _ _ _ (by omega) (by omega) (by omega)] <;> tauto
    · have hjeq : j = k := by omega
      subst hjeq
      simp only [scalarStep, Nat.mod_eq_of_lt (Fin.is_lt _)]
      rw [hsnd]
      refine ⟨?_, ?_, ?_⟩
      · exact writeRgb_at0 _ _ _ _ _
      · exact writeRgb_at1 _ _ _ _ _
      · exact writeRgb_at2 _ _ _ _ _

theorem scalarRowsFold_succ (w : ℤ) (m : ℕ) (st : Buf × ℤ) :
    scalarRowsFold yP uP vP ys uvs ps w (m + 1) st =
      scalarColsFold yP uP vP ys uvs ps (m : ℤ) w.toNat
        (scalarRowsFold yP uP vP ys uvs ps w m st) := by
  unfold scalarRowsFold
  rw [List.range_succ, List.foldl_append, List.foldl_cons, List.foldl_nil]

theorem scalarRowsFold_snd (w : ℤ) (m : ℕ) (st : Buf × ℤ) :
    (scalarRowsFold yP uP vP ys uvs ps w m st).2 =
      st.2 + ((3 * (w.toNat * m) : ℕ) : ℤ) := by
  induction m with
  | zero => simp [scalarRowsFold]
  | succ k ih =>
    rw [scalarRowsFold_succ, scalarColsFold_snd, ih]
    have hsucc : w.toNat * (k + 1) = w.toNat * k + w.toNat := by ring
    omega

theorem scalarRowsFold_frame (w : ℤ) (m : ℕ) (st : Buf × ℤ) (i : ℤ)
    (hi : i < st.2 ∨ st.2 + ((3 * (w.toNat * m) : ℕ) : ℤ) ≤ i) :
    (scalarRowsFold yP uP vP ys uvs ps w m st).1 i = st.1 i := by
  induction m with
  | zero => simp [scalarRowsFold]
  | succ k ih =>
    rw [scalarRowsFold_succ]
    have hsnd := scalarRowsFold_snd yP uP vP ys uvs ps w k st
    have hsucc : w.toNat * (k + 1) = w.toNat * k + w.toNat := by ring
    rw [scalarColsFold_frame yP uP vP ys uvs ps ((k : ℕ) : ℤ) w.toNat
      (scalarRowsFold yP uP vP ys uvs ps w k st) i (by omega)]
    exact ih (by omega)

theorem scalarRowsFold_get (w : ℤ) (m : ℕ) (st : Buf × ℤ) (r j : ℕ)
    (hr : r < m) (hj : j < w.toNat) :
    (scalarRowsFold yP uP vP ys uvs ps w m st).1
          (st.2 + ((3 * (w.toNat * r + j) : ℕ) : ℤ)) =
        clamp255 (scalarR (yP ((r : ℤ) * ys + (j : ℤ))).val
          (vP ((Int.tdiv (r : ℤ) 2) * uvs + (Int.tdiv (j : ℤ) 2) * ps)).val) ∧
      (scalarRowsFold yP uP vP ys uvs ps w m st).1
          (st.2 + ((3 * (w.toNat * r + j) : ℕ) : ℤ) + 1) =
        clamp255 (scalarG (yP ((r : ℤ) * ys + (j : ℤ))).val
          (uP ((Int.tdiv (r : ℤ) 2) * uvs + (Int.tdiv (j : ℤ) 2) * ps)).val
          (vP ((Int.tdiv (r : ℤ) 2) * uvs + (Int.tdiv (j : ℤ) 2) * ps)).val) ∧
      (scalarRowsFold yP uP vP ys uvs ps w m st).1
          (st.2 + ((3 * (w.toNat * r + j) : ℕ) : ℤ) + 2) =
        clamp255 (scalarB (yP ((r : ℤ) * ys + (j : ℤ))).val
          (uP ((Int.tdiv (r : ℤ) 2) * uvs + (Int.tdiv (j : ℤ) 2) * ps)).val) := by
  induction m with
  | zero => omega
  | succ k ih =>
    rw [scalarRowsFold_succ]
    have hsnd := scalarRowsFold_snd yP uP vP ys uvs ps w k st
    rcases Nat.lt_or_ge r k with hrk | hrk
    · have hmul : w.toNat * r + j + 1 <= w.toNat * k := by
        calc w.toNat * r + j + 1 <= w.toNat * r + w.toNat := by omega
          _ = w.toNat * (r + 1) := by ring
          _ <= w.toNat * k := Nat.mul_le_mul_left _ (by omega)
      obtain ⟨g1, g2, g3⟩ := ih hrk
      have hfr : ∀ i : ℤ, i < (scalarRowsFold yP uP vP ys uvs ps w k st).2 →
          (scalarColsFold yP uP vP ys uvs ps ((k : ℕ) : ℤ) w.toNat
            (scalarRowsFold yP uP vP ys uvs ps w k st)).1 i =
            (scalarRowsFold yP uP vP ys uvs ps w k st).1 i := fun i hi =>
        scalarColsFold_frame yP uP vP ys uvs ps _ _ _ _ (Or.inl hi)
      refine ⟨?_, ?_, ?_⟩
      · rw [hfr (st.2 + ((3 * (w.toNat * r + j) : ℕ) : ℤ)) (by omega)]
        exact g1
      · rw [hfr (st.2 + ((3 * (w.toNat * r + j) : ℕ) : ℤ) + 1) (by omega)]
        exact g2
      · rw [hfr (st.2 + ((3 * (w.toNat * r + j) : ℕ) : ℤ) + 2) (by omega)]
        exact g3
    · have hreq : r = k := by omega
      subst hreq
      have hg := scalarColsFold_get yP uP vP ys uvs ps (r : ℤ) w.toNat
        (scalarRowsFold yP uP vP ys uvs ps w r st) j hj
      have hidx : (scalarRowsFold yP uP vP ys uvs ps w r st).2 + 3 * (j : ℤ) =
          st.2 + ((3 * (w.toNat * r + j) : ℕ) : ℤ) := by
        omega
      rw [hidx] at hg
      exact hg

end ScalarSpec

/-! ## Top-level characterization of the scalar path -/

/-- Pixel `(row, col)` of the scalar output: the three bytes at offset
`(row * width + col) * 3` are the clamped BT.601 values of the samples at
`row * yRowStride + col` and `(row/2) * uvRowStride + (col/2) * uvPixelStride`. -/
theorem scalar_pixel_spec (yP uP vP : Plane) (buf : Buf) (w h ys uvs ps row col : ℤ)
    (hr0 : 0 ≤ row) (hrh : row < h) (hc0 : 0 ≤ col) (hcw : col < w) :
    convertYuv420ToRgbScalar yP uP vP buf w h ys uvs ps ((row * w + col) * 3) =
        clamp255 (scalarR (yP (row * ys + col)).val
          (vP ((Int.tdiv row 2) * uvs + (Int.tdiv col 2) * ps)).val) ∧
      convertYuv420ToRgbScalar yP uP vP buf w h ys uvs ps ((row * w + col) * 3 + 1) =
        clamp255 (scalarG (yP (row * ys + col)).val
          (uP ((Int.tdiv row 2) * uvs + (Int.tdiv col 2) * ps)).val
          (vP ((Int.tdiv row 2) * uvs + (Int.tdiv col 2) * ps)).val) ∧
      convertYuv420ToRgbScalar yP uP vP buf w h ys uvs ps ((row * w + col) * 3 + 2) =
        clamp255 (scalarB (yP (row * ys + col)).val
          (uP ((Int.tdiv row 2) * uvs + (Int.tdiv col 2) * ps)).val) := by
  have hrn : row.toNat < h.toNat := by omega
  have hcn : col.toNat < w.toNat := by omega
  have hg := scalarRowsFold_get yP uP vP ys uvs ps w h.toNat (buf, 0)
    row.toNat col.toNat hrn hcn
  have hr2 : ((row.toNat : ℕ) : ℤ) = row := by omega
  have hc2 : ((col.toNat : ℕ) : ℤ) = col := by omega
  rw [hr2, hc2] at hg
  have hw : ((w.toNat : ℕ) : ℤ) = w := by omega
  have e1 : (((buf, 0) : Buf × ℤ)).2 +
      ((3 * (w.toNat * row.toNat + col.toNat) : ℕ) : ℤ) = (row * w + col) * 3 := by
    dsimp only
    push_cast
    rw [hw, hr2, hc2]
    ring
  rw [e1] at hg
  rw [convertScalar_eq_rowsFold]
  exact hg

/-- Bytes outside `[0, width*height*3)` are not touched by the scalar path. -/
theorem scalar_frame_spec (yP uP vP : Plane) (buf : Buf) (w h ys uvs ps i : ℤ)
    (hi : i < 0 ∨ ((3 * (w.toNat * h.toNat) : ℕ) : ℤ) ≤ i) :
    convertYuv420ToRgbScalar yP uP vP buf w h ys uvs ps i = buf i := by
  rw [convertScalar_eq_rowsFold]
  exact scalarRowsFold_frame yP uP vP ys uvs ps w h.toNat (buf, 0) i
    (by dsimp only; omega)

/-! ## Characterization of the NEON path -/

section NeonSpec

variable (yP uP vP : Plane) (ys uvs ps : ℤ)

/-- First `n` lanes of a vector block (the real block has `n = 8`). -/
def neonVecBlockAux (uvPixelStride rgbRowOffset yRowOffset uvRowOffset col0 : ℤ)
    (n : ℕ) (buf : Buf) : Buf :=
  (List.range n).foldl (fun b (j : ℕ) =>
    let y : ℕ := (yP (yRowOffset + col0 + (j : ℤ))).val
    let uvIndex : ℤ := uvRowOffset + (Int.tdiv col0 2 + ((j / 2 : ℕ) : ℤ)) * uvPixelStride
    let u : ℕ := (uP uvIndex).val
    let v : ℕ := (vP uvIndex).val
    writeRgb b (rgbRowOffset + col0 * 3 + 3 * (j : ℤ)) (neonR y v) (neonG y u v) (neonB y u))
    buf

theorem neonVecBlock_eq_aux (po ro yo uo col0 : ℤ) (buf : Buf) :
    neonVecBlock yP uP vP po ro yo uo col0 buf =
      neonVecBlockAux yP uP vP po ro yo uo col0 8 buf := rfl

theorem neonVecBlockAux_succ (po ro yo uo col0 : ℤ) (k : ℕ) (buf : Buf) :
    neonVecBlockAux yP uP vP po ro yo uo col0 (k + 1) buf =
      (let y : ℕ := (yP (yo + col0 + (k : ℤ))).val
       let uvIndex : ℤ := uo + (Int.tdiv col0 2 + ((k / 2 : ℕ) : ℤ)) * po
       let u : ℕ := (uP uvIndex).val
       let v : ℕ := (vP uvIndex).val
       writeRgb (neonVecBlockAux yP uP vP po ro yo uo col0 k buf)
         (ro + col0 * 3 + 3 * (k : ℤ)) (neonR y v) (neonG y u v) (neonB y u)) := by
  unfold neonVecBlockAux
  rw [List.range_succ, List.foldl_append, List.foldl_cons, List.foldl_nil]

theorem neonVecBlockAux_frame (po ro yo uo col0 : ℤ) (n : ℕ) (buf : Buf) (i : ℤ)
    (hi : i < ro + col0 * 3 ∨ ro + col0 * 3 + 3 * (n : ℤ) ≤ i) :
    neonVecBlockAux yP uP vP po ro yo uo col0 n buf i = buf i := by
  induction n with
  | zero => simp [neonVecBlockAux]
  | succ k ih =>
    rw [neonVecBlockAux_succ]
    dsimp only
    rw [writeRgb_ne _ _ _ _ _ _ (by push_cast at hi ⊢; omega)
      (by push_cast at hi ⊢; omega) (by push_cast at hi ⊢; omega)]
    exact ih (by push_cast at hi ⊢; omega)

theorem neonVecBlockAux_get (po ro yo uo col0 : ℤ) (n : ℕ) (buf : Buf) (j : ℕ)
    (hj : j < n) :
    neonVecBlockAux yP uP vP po ro yo uo col0 n buf (ro + col0 * 3 + 3 * (j : ℤ)) =
        neonR (yP (yo + col0 + (j : ℤ))).val
          (vP (uo + (Int.tdiv col0 2 + ((j / 2 : ℕ) : ℤ)) * po)).val ∧
      neonVecBlockAux yP uP vP po ro yo uo col0 n buf (ro + col0 * 3 + 3 * (j : ℤ) + 1) =
        neonG (yP (yo + col0 + (j : ℤ))).val
          (uP (uo + (Int.tdiv col0 2 + ((j / 2 : ℕ) : ℤ)) * po)).val
          (vP (uo + (Int.tdiv col0 2 + ((j / 2 : ℕ) : ℤ)) * po)).val ∧
      neonVecBlockAux yP uP vP po ro yo uo col0 n buf (ro + col0 * 3 + 3 * (j : ℤ) + 2) =
        neonB (yP (yo + col0 + (j : ℤ))).val
          (uP (uo + (Int.tdiv col0 2 + ((j / 2 : ℕ) : ℤ)) * po)).val := by
  induction n with
  | zero => omega
  | succ k ih =>
    rw [neonVecBlockAux_succ]
    dsimp only
    rcases Nat.lt_or_ge j k with hjk | hjk
    · have := ih hjk
      refine ⟨?_, ?_, ?_⟩ <;>
        rw [writeRgb_ne _ _ _ _ _ _ (by omega) (by omega) (by omega)] <;> tauto
    · have hjeq : j = k := by omega
      subst hjeq
      exact ⟨writeRgb_at0 _ _ _ _ _, writeRgb_at1 _ _ _ _ _, writeRgb_at2 _ _ _ _ _⟩

/-- `Int.tdiv` of a natural cast by 2 is natural division. -/
theorem tdiv2_ofNat (a : ℕ) : Int.tdiv ((a : ℕ) : ℤ) 2 = ((a / 2 : ℕ) : ℤ) := by
  rw [Int.tdiv_eq_ediv (by omega) (by omega)]
  omega

/-- The full-lane loop `for (; col + 8 <= width; col += 8)`: `n` blocks. -/
def neonBlocksFold (po ro yo uo : ℤ) (n : ℕ) (buf : Buf) : Buf :=
  (List.range n).foldl (fun b (k : ℕ) =>
    neonVecBlock yP uP vP po ro yo uo ((8 * k : ℕ) : ℤ) b) buf

theorem neonBlocksFold_succ (po ro yo uo : ℤ) (k : ℕ) (buf : Buf) :
    neonBlocksFold yP uP vP po ro yo uo (k + 1) buf =
      neonVecBlock yP uP vP po ro yo uo ((8 * k : ℕ) : ℤ)
        (neonBlocksFold yP uP vP po ro yo uo k buf) := by
  unfold neonBlocksFold
  rw [List.range_succ, List.foldl_append, List.foldl_cons, List.foldl_nil]

theorem neonBlocksFold_frame (po ro yo uo : ℤ) (n : ℕ) (buf : Buf) (i : ℤ)
    (hi : i < ro ∨ ro + ((24 * n : ℕ) : ℤ) ≤ i) :
    neonBlocksFold yP uP vP po ro yo uo n buf i = buf i := by
  induction n with
  | zero => simp [neonBlocksFold]
  | succ k ih =>
    rw [neonBlocksFold_succ, neonVecBlock_eq_aux]
    rw [neonVecBlockAux_frame yP uP vP po ro yo uo _ 8 _ i (by push_cast at hi ⊢; omega)]
    exact ih (by push_cast at hi ⊢; omega)

theorem neonBlocksFold_get (po ro yo uo : ℤ) (n : ℕ) (buf : Buf) (colN : ℕ)
    (hc : colN < 8 * n) :
    neonBlocksFold yP uP vP po ro yo uo n buf (ro + ((3 * colN : ℕ) : ℤ)) =
        neonR (yP (yo + (colN : ℤ))).val (vP (uo + ((colN / 2 : ℕ) : ℤ) * po)).val ∧
      neonBlocksFold yP uP vP po ro yo uo n buf (ro + ((3 * colN : ℕ) : ℤ) + 1) =
        neonG (yP (yo + (colN : ℤ))).val (uP (uo + ((colN / 2 : ℕ) : ℤ) * po)).val
          (vP (uo + ((colN / 2 : ℕ) : ℤ) * po)).val ∧
      neonBlocksFold yP uP vP po ro yo uo n buf (ro + ((3 * colN : ℕ) : ℤ) + 2) =
        neonB (yP (yo + (colN : ℤ))).val (uP (uo + ((colN / 2 : ℕ) : ℤ) * po)).val := by
  induction n with
  | zero => omega
  | succ k ih =>
    rw [neonBlocksFold_succ, neonVecBlock_eq_aux]
    rcases Nat.lt_or_ge colN (8 * k) with hck | hck
    · obtain ⟨g1, g2, g3⟩ := ih hck
      have hfr : ∀ i : ℤ, i < ro + ((8 * k : ℕ) : ℤ) * 3 →
          neonVecBlockAux yP uP vP po ro yo uo ((8 * k : ℕ) : ℤ) 8
            (neonBlocksFold yP uP vP po ro yo uo k buf) i =
          neonBlocksFold yP uP vP po ro yo uo k buf i := fun i hi =>
        neonVecBlockAux_frame yP uP vP po ro yo uo _ 8 _ i (Or.inl hi)
      refine ⟨?_, ?_, ?_⟩
      · rw [hfr (ro + ((3 * colN : ℕ) : ℤ)) (by push_cast; omega)]; exact g1
      · rw [hfr (ro + ((3 * colN : ℕ) : ℤ) + 1) (by push_cast; omega)]; exact g2
      · rw [hfr (ro + ((3 * colN : ℕ) : ℤ) + 2) (by push_cast; omega)]; exact g3
    · have hj : colN - 8 * k < 8 := by omega
      have hg := neonVecBlockAux_get yP uP vP po ro yo uo ((8 * k : ℕ) : ℤ) 8
        (neonBlocksFold yP uP vP po ro yo uo k buf) (colN - 8 * k) hj
      have e1 : ro + ((8 * k : ℕ) : ℤ) * 3 + 3 * ((colN - 8 * k : ℕ) : ℤ) =
          ro + ((3 * colN : ℕ) : ℤ) := by push_cast; omega
      have e2 : yo + ((8 * k : ℕ) : ℤ) + ((colN - 8 * k : ℕ) : ℤ) = yo + (colN : ℤ) := by
        push_cast; omega
      have e3 : Int.tdiv ((8 * k : ℕ) : ℤ) 2 + (((colN - 8 * k) / 2 : ℕ) : ℤ) =
          ((colN / 2 : ℕ) : ℤ) := by
        rw [tdiv2_ofNat]
        push_cast
        omega
      rw [e1, e2, e3] at hg
      exact hg

/-- The trailing scalar loop: columns `base, base+1, …, base+n-1`. -/
def neonTailFold (po ro yo uo : ℤ) (base n : ℕ) (buf : Buf) : Buf :=
  (List.range n).foldl (fun b (t : ℕ) =>
    neonTailStep yP uP vP po ro yo uo ((base + t : ℕ) : ℤ) b) buf

theorem neonTailFold_succ (po ro yo uo : ℤ) (base k : ℕ) (buf : Buf) :
    neonTailFold yP uP vP po ro yo uo base (k + 1) buf =
      neonTailStep yP uP vP po ro yo uo ((base + k : ℕ) : ℤ)
        (neonTailFold yP uP vP po ro yo uo base k buf) := by
  unfold neonTailFold
  rw [List.range_succ, List.foldl_append, List.foldl_cons, List.foldl_nil]

theorem neonTailFold_frame (po ro yo uo : ℤ) (base n : ℕ) (buf : Buf) (i : ℤ)
    (hi : i < ro + ((3 * base : ℕ) : ℤ) ∨ ro + ((3 * (base + n) : ℕ) : ℤ) ≤ i) :
    neonTailFold yP uP vP po ro yo uo base n buf i = buf i := by
  induction n with
  | zero => simp [neonTailFold]
  | succ k ih =>
    rw [neonTailFold_succ]
    unfold neonTailStep
    rw [writeRgb_ne _ _ _ _ _ _ (by push_cast at hi ⊢; omega)
      (by push_cast at hi ⊢; omega) (by push_cast at hi ⊢; omega)]
    exact ih (by push_cast at hi ⊢; omega)

theorem neonTailFold_get (po ro yo uo : ℤ) (base n : ℕ) (buf : Buf) (t : ℕ)
    (ht : t < n) :
    neonTailFold yP uP vP po ro yo uo base n buf (ro + ((3 * (base + t) : ℕ) : ℤ)) =
        clamp255 (scalarR (yP (yo + ((base + t : ℕ) : ℤ))).val
          (vP (uo + (((base + t) / 2 : ℕ) : ℤ) * po)).val) ∧
      neonTailFold yP uP vP po ro yo uo base n buf (ro + ((3 * (base + t) : ℕ) : ℤ) + 1) =
        clamp255 (scalarG (yP (yo + ((base + t : ℕ) : ℤ))).val
          (uP (uo + (((base + t) / 2 : ℕ) : ℤ) * po)).val
          (vP (uo + (((base + t) / 2 : ℕ) : ℤ) * po)).val) ∧
      neonTailFold yP uP vP po ro yo uo base n buf (ro + ((3 * (base + t) : ℕ) : ℤ) + 2) =
        clamp255 (scalarB (yP (yo + ((base + t : ℕ) : ℤ))).val
          (uP (uo + (((base + t) / 2 : ℕ) : ℤ) * po)).val) := by
  induction n with
  | zero => omega
  | succ k ih =>
    rw [neonTailFold_succ]
    unfold neonTailStep
    rcases Nat.lt_or_ge t k with htk | htk
    · obtain ⟨g1, g2, g3⟩ := ih htk
      refine ⟨?_, ?_, ?_⟩ <;>
        rw [writeRgb_ne _ _ _ _ _ _ (by push_cast; omega) (by push_cast; omega)
          (by push_cast; omega)] <;> tauto
    · have hteq : t = k := by omega
      subst hteq
      have e1 : ro + ((base + t : ℕ) : ℤ) * 3 = ro + ((3 * (base + t) : ℕ) : ℤ) := by
        push_cast; ring
      rw [tdiv2_ofNat, e1]
      exact ⟨writeRgb_at0 _ _ _ _ _, writeRgb_at1 _ _ _ _ _, writeRgb_at2 _ _ _ _ _⟩

theorem neonRow_eq_folds (w row : ℤ) (buf : Buf) :
    neonRow yP uP vP w ys uvs ps row buf =
      neonTailFold yP uP vP ps (row * w * 3) (row * ys) ((Int.tdiv row 2) * uvs)
        (8 * (w.toNat / 8)) (w.toNat % 8)
        (neonBlocksFold yP uP vP ps (row * w * 3) (row * ys) ((Int.tdiv row 2) * uvs)
          (w.toNat / 8) buf) := rfl

theorem neonRow_frame (w row : ℤ) (buf : Buf) (i : ℤ)
    (hi : i < row * w * 3 ∨ row * w * 3 + ((3 * w.toNat : ℕ) : ℤ) ≤ i) :
    neonRow yP uP vP w ys uvs ps row buf i = buf i := by
  rw [neonRow_eq_folds]
  have hdm := Nat.div_add_mod w.toNat 8
  rw [neonTailFold_frame yP uP vP ps _ _ _ _ _ _ i (by push_cast at hi ⊢; omega)]
  exact neonBlocksFold_frame yP uP vP ps _ _ _ _ _ i (by push_cast at hi ⊢; omega)

theorem neonRow_get (w row : ℤ) (buf : Buf) (colN : ℕ) (hc : colN < w.toNat) :
    neonRow yP uP vP w ys uvs ps row buf (row * w * 3 + ((3 * colN : ℕ) : ℤ)) =
        (if colN < 8 * (w.toNat / 8) then
          neonR (yP (row * ys + (colN : ℤ))).val
            (vP ((Int.tdiv row 2) * uvs + ((colN / 2 : ℕ) : ℤ) * ps)).val
        else
          clamp255 (scalarR (yP (row * ys + (colN : ℤ))).val
            (vP ((Int.tdiv row 2) * uvs + ((colN / 2 : ℕ) : ℤ) * ps)).val)) ∧
      neonRow yP uP vP w ys uvs ps row buf (row * w * 3 + ((3 * colN : ℕ) : ℤ) + 1) =
        (if colN < 8 * (w.toNat / 8) then
          neonG (yP (row * ys + (colN : ℤ))).val
            (uP ((Int.tdiv row 2) * uvs + ((colN / 2 : ℕ) : ℤ) * ps)).val
            (vP ((Int.tdiv row 2) * uvs + ((colN / 2 : ℕ) : ℤ) * ps)).val
        else
          clamp255 (scalarG (yP (row * ys + (colN : ℤ))).val
            (uP ((Int.tdiv row 2) * uvs + ((colN / 2 : ℕ) : ℤ) * ps)).val
            (vP ((Int.tdiv row 2) * uvs + ((colN / 2 : ℕ) : ℤ) * ps)).val)) ∧
      neonRow yP uP vP w ys uvs ps row buf (row * w * 3 + ((3 * colN : ℕ) : ℤ) + 2) =
        (if colN < 8 * (w.toNat / 8) then
          neonB (yP (row * ys + (colN : ℤ))).val
            (uP ((Int.tdiv row 2) * uvs + ((colN / 2 : ℕ) : ℤ) * ps)).val
        else
          clamp255 (scalarB (yP (row * ys + (colN : ℤ))).val
            (uP ((Int.tdiv row 2) * uvs + ((colN / 2 : ℕ) : ℤ) * ps)).val)) := by
  rw [neonRow_eq_folds]
  have hdm := Nat.div_add_mod w.toNat 8
  by_cases hv : colN < 8 * (w.toNat / 8)
  · obtain ⟨b1, b2, b3⟩ := neonBlocksFold_get yP uP vP ps (row * w * 3) (row * ys)
      ((Int.tdiv row 2) * uvs) (w.toNat / 8) buf colN hv
    have hfr : ∀ i : ℤ, i < row * w * 3 + ((3 * (8 * (w.toNat / 8)) : ℕ) : ℤ) →
        neonTailFold yP uP vP ps (row * w * 3) (row * ys) ((Int.tdiv row 2) * uvs)
          (8 * (w.toNat / 8)) (w.toNat % 8)
          (neonBlocksFold yP uP vP ps (row * w * 3) (row * ys) ((Int.tdiv row 2) * uvs)
            (w.toNat / 8) buf) i =
        neonBlocksFold yP uP vP ps (row * w * 3) (row * ys) ((Int.tdiv row 2) * uvs)
          (w.toNat / 8) buf i := fun i hi =>
      neonTailFold_frame yP uP vP ps _ _ _ _ _ _ i (Or.inl hi)
    refine ⟨?_, ?_, ?_⟩
    · rw [hfr (row * w * 3 + ((3 * colN : ℕ) : ℤ)) (by push_cast; omega), if_pos hv]
      exact b1
    · rw [hfr (row * w * 3 + ((3 * colN : ℕ) : ℤ) + 1) (by push_cast; omega), if_pos hv]
      exact b2
    · rw [hfr (row * w * 3 + ((3 * colN : ℕ) : ℤ) + 2) (by push_cast; omega), if_pos hv]
      exact b3
  · have ht : colN - 8 * (w.toNat / 8) < w.toNat % 8 := by omega
    have hg := neonTailFold_get yP uP vP ps (row * w * 3) (row * ys)
      ((Int.tdiv row 2) * uvs) (8 * (w.toNat / 8)) (w.toNat % 8)
      (neonBlocksFold yP uP vP ps (row * w * 3) (row * ys) ((Int.tdiv row 2) * uvs)
        (w.toNat / 8) buf) (colN - 8 * (w.toNat / 8)) ht
    have hbt : 8 * (w.toNat / 8) + (colN - 8 * (w.toNat / 8)) = colN := by omega
    rw [hbt] at hg
    rw [if_neg hv, if_neg hv, if_neg hv]
    exact hg

/-- The outer row loop of the NEON path. -/
def neonRowsFold (w : ℤ) (m : ℕ) (buf : Buf) : Buf :=
  (List.range m).foldl (fun b (r : ℕ) => neonRow yP uP vP w ys uvs ps (r : ℤ) b) buf

theorem convertNeon_eq_rowsFold (buf : Buf) (w h : ℤ) :
    convertYuv420ToRgbNeon yP uP vP buf w h ys uvs ps =
      neonRowsFold yP uP vP ys uvs ps w h.toNat buf := rfl

theorem neonRowsFold_succ (w : ℤ) (k : ℕ) (buf : Buf) :
    neonRowsFold yP uP vP ys uvs ps w (k + 1) buf =
      neonRow yP uP vP w ys uvs ps (k : ℤ)
        (neonRowsFold yP uP vP ys uvs ps w k buf) := by
  unfold neonRowsFold
  rw [List.range_succ, List.foldl_append, List.foldl_cons, List.foldl_nil]

theorem neonRowsFold_frame (w : ℤ) (m : ℕ) (buf : Buf) (i : ℤ)
    (hi : i < 0 ∨ ((3 * (w.toNat * m) : ℕ) : ℤ) ≤ i) :
    neonRowsFold yP uP vP ys uvs ps w m buf i = buf i := by
  induction m with
  | zero => simp [neonRowsFold]
  | succ k ih =>
    rw [neonRowsFold_succ]
    have hms : w.toNat * (k + 1) = w.toNat * k + w.toNat := by ring
    rcases le_or_lt w 0 with hw | hw
    · have hW : w.toNat = 0 := by omega
      rw [hW] at hi hms
      rw [neonRow_frame yP uP vP ys uvs ps w (k : ℤ) _ i (by rw [hW]; omega)]
      exact ih (by rw [hW]; omega)
    · have hwW : ((w.toNat : ℕ) : ℤ) = w := by omega
      have hkprod : ((k : ℕ) : ℤ) * w * 3 = ((3 * (w.toNat * k) : ℕ) : ℤ) := by
        push_cast [hwW]
        ring
      rw [neonRow_frame yP uP vP ys uvs ps w (k : ℤ) _ i (by rw [hkprod]; omega)]
      exact ih (by omega)

theorem neonRowsFold_get (w : ℤ) (m : ℕ) (buf : Buf) (r colN : ℕ)
    (hr : r < m) (hc : colN < w.toNat) :
    neonRowsFold yP uP vP ys uvs ps w m buf
          (((r : ℕ) : ℤ) * w * 3 + ((3 * colN : ℕ) : ℤ)) =
        (if colN < 8 * (w.toNat / 8) then
          neonR (yP ((r : ℤ) * ys + (colN : ℤ))).val
            (vP ((Int.tdiv (r : ℤ) 2) * uvs + ((colN / 2 : ℕ) : ℤ) * ps)).val
        else
          clamp255 (scalarR (yP ((r : ℤ) * ys + (colN : ℤ))).val
            (vP ((Int.tdiv (r : ℤ) 2) * uvs + ((colN / 2 : ℕ) : ℤ) * ps)).val)) ∧
      neonRowsFold yP uP vP ys uvs ps w m buf
          (((r : ℕ) : ℤ) * w * 3 + ((3 * colN : ℕ) : ℤ) + 1) =
        (if colN < 8 * (w.toNat / 8) then
          neonG (yP ((r : ℤ) * ys + (colN : ℤ))).val
            (uP ((Int.tdiv (r : ℤ) 2) * uvs + ((colN / 2 : ℕ) : ℤ) * ps)).val
            (vP ((Int.tdiv (r : ℤ) 2) * uvs + ((colN / 2 : ℕ) : ℤ) * ps)).val
        else
          clamp255 (scalarG (yP ((r : ℤ) * ys + (colN : ℤ))).val
            (uP ((Int.tdiv (r : ℤ) 2) * uvs + ((colN / 2 : ℕ) : ℤ) * ps)).val
            (vP ((Int.tdiv (r : ℤ) 2) * uvs + ((colN / 2 : ℕ) : ℤ) * ps)).val)) ∧
      neonRowsFold yP uP vP ys uvs ps w m buf
          (((r : ℕ) : ℤ) * w * 3 + ((3 * colN : ℕ) : ℤ) + 2) =
        (if colN < 8 * (w.toNat / 8) then
          neonB (yP ((r : ℤ) * ys + (colN : ℤ))).val
            (uP ((Int.tdiv (r : ℤ) 2) * uvs + ((colN / 2 : ℕ) : ℤ) * ps)).val
        else
          clamp255 (scalarB (yP ((r : ℤ) * ys + (colN : ℤ))).val
            (uP ((Int.tdiv (r : ℤ) 2) * uvs + ((colN / 2 : ℕ) : ℤ) * ps)).val)) := by
  induction m with
  | zero => omega
  | succ k ih =>
    rw [neonRowsFold_succ]
    have hw : 0 < w := by omega
    have hwW : ((w.toNat : ℕ) : ℤ) = w := by omega
    rcases Nat.lt_or_ge r k with hrk | hrk
    · have hmul : w.toNat * r + colN + 1 <= w.toNat * k := by
        calc w.toNat * r + colN + 1 <= w.toNat * r + w.toNat := by omega
          _ = w.toNat * (r + 1) := by ring
          _ <= w.toNat * k := Nat.mul_le_mul_left _ (by omega)
      have hrprod : ((r : ℕ) : ℤ) * w * 3 = ((3 * (w.toNat * r) : ℕ) : ℤ) := by
        push_cast [hwW]
        ring
      have hkprod : ((k : ℕ) : ℤ) * w * 3 = ((3 * (w.toNat * k) : ℕ) : ℤ) := by
        push_cast [hwW]
        ring
      obtain ⟨g1, g2, g3⟩ := ih hrk
      have hfr : ∀ i : ℤ, i < ((k : ℕ) : ℤ) * w * 3 →
          neonRow yP uP vP w ys uvs ps (k : ℤ)
            (neonRowsFold yP uP vP ys uvs ps w k buf) i =
          neonRowsFold yP uP vP ys uvs ps w k buf i := fun i hi =>
        neonRow_frame yP uP vP ys uvs ps w (k : ℤ) _ i (Or.inl hi)
      refine ⟨?_, ?_, ?_⟩
      · rw [hfr (((r : ℕ) : ℤ) * w * 3 + ((3 * colN : ℕ) : ℤ))
          (by rw [hrprod, hkprod]; omega)]
        exact g1
      · rw [hfr (((r : ℕ) : ℤ) * w * 3 + ((3 * colN : ℕ) : ℤ) + 1)
          (by rw [hrprod, hkprod]; omega)]
        exact g2
      · rw [hfr (((r : ℕ) : ℤ) * w * 3 + ((3 * colN : ℕ) : ℤ) + 2)
          (by rw [hrprod, hkprod]; omega)]
        exact g3
    · have hreq : r = k := by omega
      subst hreq
      exact neonRow_get yP uP vP ys uvs ps w ((r : ℕ) : ℤ)
        (neonRowsFold yP uP vP ys uvs ps w r buf) colN hc

end NeonSpec

/-! ## Top-level characterization of the NEON path -/

/-- Pixel `(row, col)` of the NEON output: full-lane columns
(`col < 8 * (width/8)`) carry the fixed-point lane values, trailing columns
carry the scalar values; both read the same sample indices as the scalar
path. -/
theorem neon_pixel_spec (yP uP vP : Plane) (buf : Buf) (w h ys uvs ps row col : ℤ)
    (hr0 : 0 ≤ row) (hrh : row < h) (hc0 : 0 ≤ col) (hcw : col < w) :
    convertYuv420ToRgbNeon yP uP vP buf w h ys uvs ps ((row * w + col) * 3) =
        (if col.toNat < 8 * (w.toNat / 8) then
          neonR (yP (row * ys + col)).val
            (vP ((Int.tdiv row 2) * uvs + (Int.tdiv col 2) * ps)).val
        else
          clamp255 (scalarR (yP (row * ys + col)).val
            (vP ((Int.tdiv row 2) * uvs + (Int.tdiv col 2) * ps)).val)) ∧
      convertYuv420ToRgbNeon yP uP vP buf w h ys uvs ps ((row * w + col) * 3 + 1) =
        (if col.toNat < 8 * (w.toNat / 8) then
          neonG (yP (row * ys + col)).val
            (uP ((Int.tdiv row 2) * uvs + (Int.tdiv col 2) * ps)).val
            (vP ((Int.tdiv row 2) * uvs + (Int.tdiv col 2) * ps)).val
        else
          clamp255 (scalarG (yP (row * ys + col)).val
            (uP ((Int.tdiv row 2) * uvs + (Int.tdiv col 2) * ps)).val
            (vP ((Int.tdiv row 2) * uvs + (Int.tdiv col 2) * ps)).val)) ∧
      convertYuv420ToRgbNeon yP uP vP buf w h ys uvs ps ((row * w + col) * 3 + 2) =
        (if col.toNat < 8 * (w.toNat / 8) then
          neonB (yP (row * ys + col)).val
            (uP ((Int.tdiv row 2) * uvs + (Int.tdiv col 2) * ps)).val
        else
          clamp255 (scalarB (yP (row * ys + col)).val
            (uP ((Int.tdiv row 2) * uvs + (Int.tdiv col 2) * ps)).val)) := by
  have hrn : row.toNat < h.toNat := by omega
  have hcn : col.toNat < w.toNat := by omega
  have hg := neonRowsFold_get yP uP vP ys uvs ps w h.toNat buf row.toNat col.toNat hrn hcn
  have hr2 : ((row.toNat : ℕ) : ℤ) = row := by omega
  have hc2 : ((col.toNat : ℕ) : ℤ) = col := by omega
  have hw : ((w.toNat : ℕ) : ℤ) = w := by omega
  have htd : ((col.toNat / 2 : ℕ) : ℤ) = Int.tdiv col 2 := by
    have h2 := tdiv2_ofNat col.toNat
    rw [hc2] at h2
    exact h2.symm
  rw [hr2, hc2, htd] at hg
  have e1 : row * w * 3 + ((3 * col.toNat : ℕ) : ℤ) = (row * w + col) * 3 := by
    push_cast
    rw [hc2]
    ring
  rw [e1] at hg
  rw [convertNeon_eq_rowsFold]
  exact hg

/-- Bytes outside `[0, width*height*3)` are not touched by the NEON path. -/
theorem neon_frame_spec (yP uP vP : Plane) (buf : Buf) (w h ys uvs ps i : ℤ)
    (hi : i < 0 ∨ ((3 * (w.toNat * h.toNat) : ℕ) : ℤ) ≤ i) :
    convertYuv420ToRgbNeon yP uP vP buf w h ys uvs ps i = buf i := by
  rw [convertNeon_eq_rowsFold]
  exact neonRowsFold_frame yP uP vP ys uvs ps w h.toNat buf i hi


/-! ## Range and saturation helpers -/

theorem foldl_induct {α β : Type} (P : α → Prop) (f : α → β → α) (l : List β)
    (hstep : ∀ a b, P a → P (f a b)) (a0 : α) (h0 : P a0) : P (l.foldl f a0) := by
  induction l generalizing a0 with
  | nil => exact h0
  | cons x xs ih => exact ih _ (hstep _ _ h0)

theorem clamp255_le (v : ℤ) : clamp255 v ≤ 255 := by
  unfold clamp255
  split_ifs <;> omega

theorem vqmovun_le (v : ℤ) : vqmovun v ≤ 255 := by
  unfold vqmovun
  split_ifs <;> omega

theorem writeRgb_le (buf : Buf) (idx : ℤ) (r g b : ℕ)
    (hb : ∀ i, buf i ≤ 255) (hr : r ≤ 255) (hg : g ≤ 255) (hbb : b ≤ 255) :
    ∀ i, writeRgb buf idx r g b i ≤ 255 := by
  intro i
  rcases eq_or_ne i (idx + 2) with h | h
  · rw [h, writeRgb_at2]; exact hbb
  rcases eq_or_ne i (idx + 1) with h1 | h1
  · rw [h1, writeRgb_at1]; exact hg
  rcases eq_or_ne i idx with h0 | h0
  · rw [h0, writeRgb_at0]; exact hr
  · rw [writeRgb_ne _ _ _ _ _ _ h0 h1 h]; exact hb i

theorem scalar_range (yP uP vP : Plane) (buf : Buf) (w h ys uvs ps : ℤ)
    (hb : ∀ i, buf i ≤ 255) :
    ∀ i, convertYuv420ToRgbScalar yP uP vP buf w h ys uvs ps i ≤ 255 := by
  unfold convertYuv420ToRgbScalar
  have := foldl_induct (fun st : Buf × ℤ => ∀ j, st.1 j ≤ 255)
    (fun st (r : ℕ) =>
      (List.range w.toNat).foldl (fun st2 (c : ℕ) =>
        scalarStep yP uP vP ys uvs ps (r : ℤ) (c : ℤ) st2) st)
    (List.range h.toNat)
    (fun st r hst => foldl_induct _ _ _
      (fun st2 c hst2 => writeRgb_le _ _ _ _ _ hst2 (clamp255_le _) (clamp255_le _)
        (clamp255_le _)) st hst)
    (buf, 0) hb
  exact this

theorem neon_range (yP uP vP : Plane) (buf : Buf) (w h ys uvs ps : ℤ)
    (hb : ∀ i, buf i ≤ 255) :
    ∀ i, convertYuv420ToRgbNeon yP uP vP buf w h ys uvs ps i ≤ 255 := by
  have hblock : ∀ (po ro yo uo col0 : ℤ) (b : Buf), (∀ j, b j ≤ 255) →
      ∀ j, neonVecBlock yP uP vP po ro yo uo col0 b j ≤ 255 := by
    intro po ro yo uo col0 b hbb
    unfold neonVecBlock
    exact foldl_induct (fun bb : Buf => ∀ j, bb j ≤ 255) _ _
      (fun bb j hb2 => writeRgb_le _ _ _ _ _ hb2
        (by unfold neonR; exact vqmovun_le _) (by unfold neonG; exact vqmovun_le _)
        (by unfold neonB; exact vqmovun_le _)) b hbb
  have htail : ∀ (po ro yo uo col : ℤ) (b : Buf), (∀ j, b j ≤ 255) →
      ∀ j, neonTailStep yP uP vP po ro yo uo col b j ≤ 255 := by
    intro po ro yo uo col b hbb
    unfold neonTailStep
    exact writeRgb_le _ _ _ _ _ hbb (clamp255_le _) (clamp255_le _) (clamp255_le _)
  have hrow : ∀ (row : ℤ) (b : Buf), (∀ j, b j ≤ 255) →
      ∀ j, neonRow yP uP vP w ys uvs ps row b j ≤ 255 := by
    intro row b hbb
    unfold neonRow
    refine foldl_induct (fun bb : Buf => ∀ j, bb j ≤ 255) _ _
      (fun bb t hb2 => htail _ _ _ _ _ _ hb2) _ ?_
    exact foldl_induct (fun bb : Buf => ∀ j, bb j ≤ 255) _ _
      (fun bb k hb2 => hblock _ _ _ _ _ _ hb2) b hbb
  unfold convertYuv420ToRgbNeon
  exact foldl_induct (fun bb : Buf => ∀ j, bb j ≤ 255) _ _
    (fun bb r hb2 => hrow _ _ hb2) buf hb

/-! ## Decomposition of an output-region byte index into pixel coordinates -/

theorem pixel_decomp (w h i : ℤ) (h0 : 0 ≤ i)
    (hi : i < ((3 * (w.toNat * h.toNat) : ℕ) : ℤ)) :
    ∃ (row col c : ℤ), 0 ≤ row ∧ row < h ∧ 0 ≤ col ∧ col < w ∧
      (c = 0 ∨ c = 1 ∨ c = 2) ∧ i = (row * w + col) * 3 + c := by
  obtain ⟨q, hqdef⟩ : ∃ q : ℕ, q = i.toNat / 3 := ⟨_, rfl⟩
  obtain ⟨ch, hchdef⟩ : ∃ ch : ℕ, ch = i.toNat % 3 := ⟨_, rfl⟩
  have hk : i.toNat < 3 * (w.toNat * h.toNat) := by omega
  have hq : q < w.toNat * h.toNat := by omega
  have hW0 : 0 < w.toNat := by
    by_contra hcon
    have hz : w.toNat = 0 := by omega
    rw [hz, Nat.zero_mul] at hq
    omega
  obtain ⟨r, hrdef⟩ : ∃ r : ℕ, r = q / w.toNat := ⟨_, rfl⟩
  obtain ⟨c, hcdef⟩ : ∃ c : ℕ, c = q % w.toNat := ⟨_, rfl⟩
  have hdm : w.toNat * r + c = q := by rw [hrdef, hcdef]; exact Nat.div_add_mod q w.toNat
  have hcW : c < w.toNat := by rw [hcdef]; exact Nat.mod_lt _ hW0
  have hrH : r < h.toNat := by rw [hrdef]; exact Nat.div_lt_of_lt_mul hq
  have hwW : ((w.toNat : ℕ) : ℤ) = w := by omega
  refine ⟨(r : ℤ), (c : ℤ), (ch : ℤ), by omega, by omega, by omega, by omega, by omega, ?_⟩
  have hcast : ((r : ℕ) : ℤ) * w = ((w.toNat * r : ℕ) : ℤ) := by
    push_cast
    rw [hwW]
    ring
  omega

/-! ## Exact rational form of the scalar float arithmetic: for every byte
value the binary32 computation `(int)(c_f * (x - 128))` agrees with
truncation-toward-zero of the exact rational product `c * (x - 128)`. -/

set_option maxRecDepth 100000 in
theorem f32_1402_rat : ∀ k : Fin 256,
    f32mulTrunc c1402 23 ((k.val : ℤ) - 128) = Int.tdiv (701 * ((k.val : ℤ) - 128)) 500 := by
  decide

set_option maxRecDepth 100000 in
theorem f32_0344136_rat : ∀ k : Fin 256,
    f32mulTrunc c0344136 25 ((k.val : ℤ) - 128) =
      Int.tdiv (43017 * ((k.val : ℤ) - 128)) 125000 := by
  decide

set_option maxRecDepth 100000 in
theorem f32_0714136_rat : ∀ k : Fin 256,
    f32mulTrunc c0714136 24 ((k.val : ℤ) - 128) =
      Int.tdiv (89267 * ((k.val : ℤ) - 128)) 125000 := by
  decide

set_option maxRecDepth 100000 in
theorem f32_1772_rat : ∀ k : Fin 256,
    f32mulTrunc c1772 23 ((k.val : ℤ) - 128) = Int.tdiv (443 * ((k.val : ℤ) - 128)) 250 := by
  decide

/-! ## Neutral-chroma value lemmas -/

theorem clamp255_of_byte (y : ℕ) (hy : y < 256) : clamp255 ((y : ℕ) : ℤ) = y := by
  unfold clamp255
  split_ifs <;> omega

theorem scalarR_neutral (y : ℕ) : scalarR y 128 = ((y : ℕ) : ℤ) := by
  unfold scalarR
  have h0 : (((128 : ℕ) : ℤ)) - 128 = 0 := by norm_num
  rw [h0, show f32mulTrunc c1402 23 0 = 0 from by decide]
  ring

theorem scalarG_neutral (y : ℕ) : scalarG y 128 128 = ((y : ℕ) : ℤ) := by
  unfold scalarG
  have h0 : (((128 : ℕ) : ℤ)) - 128 = 0 := by norm_num
  rw [h0, show f32mulTrunc c0344136 25 0 = 0 from by decide,
    show f32mulTrunc c0714136 24 0 = 0 from by decide]
  ring

theorem scalarB_neutral (y : ℕ) : scalarB y 128 = ((y : ℕ) : ℤ) := by
  unfold scalarB
  have h0 : (((128 : ℕ) : ℤ)) - 128 = 0 := by norm_num
  rw [h0, show f32mulTrunc c1772 23 0 = 0 from by decide]
  ring

theorem toS16_of_byte (y : ℕ) (hy : y < 256) : toS16 ((y : ℕ) : ℤ) = ((y : ℕ) : ℤ) := by
  unfold toS16
  omega

theorem subS16_neutral : subS16 (((128 : ℕ) : ℕ) : ℤ) 128 = 0 := by
  unfold subS16 toS16
  norm_num

theorem vqmovun_of_byte (y : ℕ) (hy : y < 256) : vqmovun ((y : ℕ) : ℤ) = y := by
  unfold vqmovun
  split_ifs <;> omega

theorem neonR_neutral (y : ℕ) (hy : y < 256) : neonR y 128 = y := by
  unfold neonR
  rw [subS16_neutral, show mulS16 359 0 = 0 from by decide,
    show shr8S16 0 = 0 from by decide]
  unfold addS16
  rw [add_zero, toS16_of_byte y hy, vqmovun_of_byte y hy]

theorem neonG_neutral (y : ℕ) (hy : y < 256) : neonG y 128 128 = y := by
  unfold neonG
  rw [subS16_neutral, show mulS16 88 0 = 0 from by decide,
    show mulS16 183 0 = 0 from by decide, show shr8S16 0 = 0 from by decide]
  unfold subS16
  simp only [sub_zero]
  rw [toS16_of_byte y hy, toS16_of_byte y hy, vqmovun_of_byte y hy]

theorem neonB_neutral (y : ℕ) (hy : y < 256) : neonB y 128 = y := by
  unfold neonB
  rw [subS16_neutral, show mulS16 454 0 = 0 from by decide,
    show shr8S16 0 = 0 from by decide]
  unfold addS16
  rw [add_zero, toS16_of_byte y hy, vqmovun_of_byte y hy]

/-! ## Claims -/

/-- C1 (code bug): the NEON path does **not** stay within ±1 of the scalar
path on every frame.  On an 8×1 frame with Y=200, U=0, V=128 the 16-bit lane
product `454 * (0 - 128) = -58112` wraps modulo `2^16` to `7424`, so the NEON
blue channel of pixel 0 is 229 while the scalar blue channel is 0 — a
divergence of 229, far outside the ±1 bound the specification demands. -/
theorem claim_C1_overflow_divergence :
    convertYuv420ToRgbNeon (constPlane 200) (constPlane 0) (constPlane 128)
      (fun _ => 0) 8 1 8 8 1 2 = 229 ∧
    convertYuv420ToRgbScalar (constPlane 200) (constPlane 0) (constPlane 128)
      (fun _ => 0) 8 1 8 8 1 2 = 0 ∧
    ¬((convertYuv420ToRgbNeon (constPlane 200) (constPlane 0) (constPlane 128)
          (fun _ => 0) 8 1 8 8 1 2 : ℤ) -
        (convertYuv420ToRgbScalar (constPlane 200) (constPlane 0) (constPlane 128)
          (fun _ => 0) 8 1 8 8 1 2 : ℤ) ≤ 1) := by
  refine ⟨by decide, by decide, ?_⟩
  rw [show convertYuv420ToRgbNeon (constPlane 200) (constPlane 0) (constPlane 128)
      (fun _ => 0) 8 1 8 8 1 2 = 229 from by decide,
    show convertYuv420ToRgbScalar (constPlane 200) (constPlane 0) (constPlane 128)
      (fun _ => 0) 8 1 8 8 1 2 = 0 from by decide]
  norm_num

/-- C2 (code bug): the 16-bit lanes do **not** give enough headroom.  With
`U = 0` the centered chroma lane is `-128` and the product lane
`vmulq_s16(454, -128)` should be `-58112`, which lies outside
`[-32768, 32767]`; the lane actually wraps to `7424`. -/
theorem claim_C2_lane_overflow :
    subS16 ((0 : ℕ) : ℤ) 128 = -128 ∧
    454 * subS16 ((0 : ℕ) : ℤ) 128 = -58112 ∧
    454 * subS16 ((0 : ℕ) : ℤ) 128 < -32768 ∧
    mulS16 454 (subS16 ((0 : ℕ) : ℤ) 128) = 7424 ∧
    mulS16 454 (subS16 ((0 : ℕ) : ℤ) 128) ≠ 454 * subS16 ((0 : ℕ) : ℤ) 128 := by
  decide

/-- C4 (counterexample): on the 2×2 BT.601 black-point frame (Y=16, U=V=128)
the first output byte is 16, not 0, in both paths: the kernel does not rescale
the 16–235 studio-swing luma range. -/
theorem claim_C4_counterexample :
    convertYuv420ToRgbScalar (constPlane 16) (constPlane 128) (constPlane 128)
      (fun _ => 0) 2 2 2 1 1 0 = 16 ∧
    convertYuv420ToRgbNeon (constPlane 16) (constPlane 128) (constPlane 128)
      (fun _ => 0) 2 2 2 1 1 0 = 16 ∧ (16 : ℕ) ≠ 0 := by
  decide

/-- C4 (amended): on the 2×2 frame with Y=16, U=V=128, both paths produce all
four output pixels equal to (16,16,16). -/
theorem claim_C4_amended_black_point :
    ((List.range 12).map (fun (k : ℕ) =>
      convertYuv420ToRgbScalar (constPlane 16) (constPlane 128) (constPlane 128)
        (fun _ => 0) 2 2 2 1 1 (k : ℤ))) = List.replicate 12 16 ∧
    ((List.range 12).map (fun (k : ℕ) =>
      convertYuv420ToRgbNeon (constPlane 16) (constPlane 128) (constPlane 128)
        (fun _ => 0) 2 2 2 1 1 (k : ℤ))) = List.replicate 12 16 := by
  decide

/-- C3: scalar-path per-pixel correctness.  For every in-range pixel the
scalar path reads Y at `row*yRowStride + col`, U and V at
`(row/2)*uvRowStride + (col/2)*uvPixelStride` (truncating division), computes
R = Y + 1.402·(V−128), G = Y − 0.344136·(U−128) − 0.714136·(V−128),
B = Y + 1.772·(U−128) with each intermediate product truncated toward zero
(`Int.tdiv`, with the constants as exact rationals 701/500, 43017/125000,
89267/125000, 443/250), saturates to [0,255] and stores R,G,B at output
offset `(row*width + col)*3`. -/
theorem claim_C3_scalar_pixel (yP uP vP : Plane) (buf : Buf) (w h ys uvs ps row col : ℤ)
    (hr0 : 0 ≤ row) (hrh : row < h) (hc0 : 0 ≤ col) (hcw : col < w) :
    convertYuv420ToRgbScalar yP uP vP buf w h ys uvs ps ((row * w + col) * 3) =
        clamp255 (((yP (row * ys + col)).val : ℤ) +
          Int.tdiv (701 * (((vP ((Int.tdiv row 2) * uvs + (Int.tdiv col 2) * ps)).val : ℤ)
            - 128)) 500) ∧
      convertYuv420ToRgbScalar yP uP vP buf w h ys uvs ps ((row * w + col) * 3 + 1) =
        clamp255 (((yP (row * ys + col)).val : ℤ) -
          Int.tdiv (43017 * (((uP ((Int.tdiv row 2) * uvs + (Int.tdiv col 2) * ps)).val : ℤ)
            - 128)) 125000 -
          Int.tdiv (89267 * (((vP ((Int.tdiv row 2) * uvs + (Int.tdiv col 2) * ps)).val : ℤ)
            - 128)) 125000) ∧
      convertYuv420ToRgbScalar yP uP vP buf w h ys uvs ps ((row * w + col) * 3 + 2) =
        clamp255 (((yP (row * ys + col)).val : ℤ) +
          Int.tdiv (443 * (((uP ((Int.tdiv row 2) * uvs + (Int.tdiv col 2) * ps)).val : ℤ)
            - 128)) 250) := by
  obtain ⟨g1, g2, g3⟩ := scalar_pixel_spec yP uP vP buf w h ys uvs ps row col hr0 hrh hc0 hcw
  unfold scalarR at g1
  unfold scalarG at g2
  unfold scalarB at g3
  rw [f32_1402_rat] at g1
  rw [f32_0344136_rat, f32_0714136_rat] at g2
  rw [f32_1772_rat] at g3
  exact ⟨g1, g2, g3⟩

/-- C3 witness: the theorem applied to a concrete 3×2 frame at pixel (1,2). -/
theorem claim_C3_scalar_pixel_witness :
    ((0 : ℤ) ≤ 1 ∧ (1 : ℤ) < 2 ∧ (0 : ℤ) ≤ 2 ∧ (2 : ℤ) < 3) ∧
    (convertYuv420ToRgbScalar (constPlane 99) (constPlane 30) (constPlane 201)
        (fun _ => 0) 3 2 4 2 1 ((1 * 3 + 2) * 3) =
        clamp255 (((constPlane 99 (1 * 4 + 2)).val : ℤ) +
          Int.tdiv (701 * (((constPlane 201 ((Int.tdiv (1 : ℤ) 2) * 2 +
            (Int.tdiv (2 : ℤ) 2) * 1)).val : ℤ) - 128)) 500) ∧
      convertYuv420ToRgbScalar (constPlane 99) (constPlane 30) (constPlane 201)
        (fun _ => 0) 3 2 4 2 1 ((1 * 3 + 2) * 3 + 1) =
        clamp255 (((constPlane 99 (1 * 4 + 2)).val : ℤ) -
          Int.tdiv (43017 * (((constPlane 30 ((Int.tdiv (1 : ℤ) 2) * 2 +
            (Int.tdiv (2 : ℤ) 2) * 1)).val : ℤ) - 128)) 125000 -
          Int.tdiv (89267 * (((constPlane 201 ((Int.tdiv (1 : ℤ) 2) * 2 +
            (Int.tdiv (2 : ℤ) 2) * 1)).val : ℤ) - 128)) 125000) ∧
      convertYuv420ToRgbScalar (constPlane 99) (constPlane 30) (constPlane 201)
        (fun _ => 0) 3 2 4 2 1 ((1 * 3 + 2) * 3 + 2) =
        clamp255 (((constPlane 99 (1 * 4 + 2)).val : ℤ) +
          Int.tdiv (443 * (((constPlane 30 ((Int.tdiv (1 : ℤ) 2) * 2 +
            (Int.tdiv (2 : ℤ) 2) * 1)).val : ℤ) - 128)) 250)) :=
  ⟨⟨by norm_num, by norm_num, by norm_num, by norm_num⟩,
    claim_C3_scalar_pixel (constPlane 99) (constPlane 30) (constPlane 201)
      (fun _ => 0) 3 2 4 2 1 1 2 (by norm_num) (by norm_num) (by norm_num) (by norm_num)⟩

/-- C8: if every U and V sample is 128 then both paths output R = G = B equal
to the luma byte at every pixel. -/
theorem claim_C8_neutral_chroma (yP uP vP : Plane) (buf : Buf) (w h ys uvs ps row col : ℤ)
    (hU : ∀ i, uP i = 128) (hV : ∀ i, vP i = 128)
    (hr0 : 0 ≤ row) (hrh : row < h) (hc0 : 0 ≤ col) (hcw : col < w) :
    (convertYuv420ToRgbScalar yP uP vP buf w h ys uvs ps ((row * w + col) * 3) =
        (yP (row * ys + col)).val ∧
      convertYuv420ToRgbScalar yP uP vP buf w h ys uvs ps ((row * w + col) * 3 + 1) =
        (yP (row * ys + col)).val ∧
      convertYuv420ToRgbScalar yP uP vP buf w h ys uvs ps ((row * w + col) * 3 + 2) =
        (yP (row * ys + col)).val) ∧
    (convertYuv420ToRgbNeon yP uP vP buf w h ys uvs ps ((row * w + col) * 3) =
        (yP (row * ys + col)).val ∧
      convertYuv420ToRgbNeon yP uP vP buf w h ys uvs ps ((row * w + col) * 3 + 1) =
        (yP (row * ys + col)).val ∧
      convertYuv420ToRgbNeon yP uP vP buf w h ys uvs ps ((row * w + col) * 3 + 2) =
        (yP (row * ys + col)).val) := by
  have h128 : ((128 : Fin 256)).val = 128 := rfl
  have hy := Fin.is_lt (yP (row * ys + col))
  obtain ⟨s1, s2, s3⟩ := scalar_pixel_spec yP uP vP buf w h ys uvs ps row col hr0 hrh hc0 hcw
  obtain ⟨n1, n2, n3⟩ := neon_pixel_spec yP uP vP buf w h ys uvs ps row col hr0 hrh hc0 hcw
  rw [hV, h128] at s1 n1
  rw [hU, hV, h128] at s2 n2
  rw [hU, h128] at s3 n3
  rw [scalarR_neutral] at s1
  rw [scalarG_neutral] at s2
  rw [scalarB_neutral] at s3
  rw [clamp255_of_byte _ hy] at s1 s2 s3
  refine ⟨⟨s1, s2, s3⟩, ?_, ?_, ?_⟩
  · rw [n1]
    split_ifs
    · exact neonR_neutral _ hy
    · rw [scalarR_neutral, clamp255_of_byte _ hy]
  · rw [n2]
    split_ifs
    · exact neonG_neutral _ hy
    · rw [scalarG_neutral, clamp255_of_byte _ hy]
  · rw [n3]
    split_ifs
    · exact neonB_neutral _ hy
    · rw [scalarB_neutral, clamp255_of_byte _ hy]

/-- C8 witness: solid gray (Y=U=V=128) on a 9×2 frame at pixel (1,8): both
paths give R = G = B = 128. -/
theorem claim_C8_neutral_chroma_witness :
    (convertYuv420ToRgbScalar (constPlane 128) (constPlane 128) (constPlane 128)
        (fun _ => 0) 9 2 9 5 1 ((1 * 9 + 8) * 3) = (constPlane 128 (1 * 9 + 8)).val ∧
      convertYuv420ToRgbScalar (constPlane 128) (constPlane 128) (constPlane 128)
        (fun _ => 0) 9 2 9 5 1 ((1 * 9 + 8) * 3 + 1) = (constPlane 128 (1 * 9 + 8)).val ∧
      convertYuv420ToRgbScalar (constPlane 128) (constPlane 128) (constPlane 128)
        (fun _ => 0) 9 2 9 5 1 ((1 * 9 + 8) * 3 + 2) = (constPlane 128 (1 * 9 + 8)).val) ∧
    (convertYuv420ToRgbNeon (constPlane 128) (constPlane 128) (constPlane 128)
        (fun _ => 0) 9 2 9 5 1 ((1 * 9 + 8) * 3) = (constPlane 128 (1 * 9 + 8)).val ∧
      convertYuv420ToRgbNeon (constPlane 128) (constPlane 128) (constPlane 128)
        (fun _ => 0) 9 2 9 5 1 ((1 * 9 + 8) * 3 + 1) = (constPlane 128 (1 * 9 + 8)).val ∧
      convertYuv420ToRgbNeon (constPlane 128) (constPlane 128) (constPlane 128)
        (fun _ => 0) 9 2 9 5 1 ((1 * 9 + 8) * 3 + 2) = (constPlane 128 (1 * 9 + 8)).val) :=
  claim_C8_neutral_chroma (constPlane 128) (constPlane 128) (constPlane 128)
    (fun _ => 0) 9 2 9 5 1 1 8 (fun _ => rfl) (fun _ => rfl)
    (by norm_num) (by norm_num) (by norm_num) (by norm_num)

/-- C10: for non-positive width or height neither path writes anything: the
output buffer is returned unchanged at every index, and the result does not
depend on the contents of the input planes (no plane byte is read). -/
theorem claim_C10_degenerate_geometry (yP uP vP yP2 uP2 vP2 : Plane) (buf : Buf)
    (w h ys uvs ps : ℤ) (useNeon : Bool) (hdeg : w ≤ 0 ∨ h ≤ 0) (i : ℤ) :
    convertYuv420ToRgbScalar yP uP vP buf w h ys uvs ps i = buf i ∧
    convertYuv420ToRgbNeon yP uP vP buf w h ys uvs ps i = buf i ∧
    convertYuv420ToRgb useNeon yP uP vP buf w h ys uvs ps i = buf i ∧
    convertYuv420ToRgbScalar yP uP vP buf w h ys uvs ps i =
      convertYuv420ToRgbScalar yP2 uP2 vP2 buf w h ys uvs ps i ∧
    convertYuv420ToRgbNeon yP uP vP buf w h ys uvs ps i =
      convertYuv420ToRgbNeon yP2 uP2 vP2 buf w h ys uvs ps i := by
  have h0 : w.toNat * h.toNat = 0 := by
    rcases hdeg with hd | hd
    · exact Nat.mul_eq_zero.mpr (Or.inl (by omega))
    · exact Nat.mul_eq_zero.mpr (Or.inr (by omega))
  have hs := scalar_frame_spec yP uP vP buf w h ys uvs ps i (by omega)
  have hs2 := scalar_frame_spec yP2 uP2 vP2 buf w h ys uvs ps i (by omega)
  have hn := neon_frame_spec yP uP vP buf w h ys uvs ps i (by omega)
  have hn2 := neon_frame_spec yP2 uP2 vP2 buf w h ys uvs ps i (by omega)
  refine ⟨hs, hn, ?_, hs.trans hs2.symm, hn.trans hn2.symm⟩
  cases useNeon
  · simpa [convertYuv420ToRgb] using hs
  · simpa [convertYuv420ToRgb] using hn

/-- C10 witness: a 0×4 geometry leaves byte 5 of the output untouched. -/
theorem claim_C10_degenerate_geometry_witness :
    convertYuv420ToRgbScalar (constPlane 9) (constPlane 8) (constPlane 7)
      (fun _ => 3) 0 4 2 1 1 5 = (fun _ => 3 : Buf) 5 ∧
    convertYuv420ToRgbNeon (constPlane 9) (constPlane 8) (constPlane 7)
      (fun _ => 3) 0 4 2 1 1 5 = (fun _ => 3 : Buf) 5 ∧
    convertYuv420ToRgb true (constPlane 9) (constPlane 8) (constPlane 7)
      (fun _ => 3) 0 4 2 1 1 5 = (fun _ => 3 : Buf) 5 ∧
    convertYuv420ToRgbScalar (constPlane 9) (constPlane 8) (constPlane 7)
      (fun _ => 3) 0 4 2 1 1 5 =
      convertYuv420ToRgbScalar (constPlane 1) (constPlane 2) (constPlane 3)
        (fun _ => 3) 0 4 2 1 1 5 ∧
    convertYuv420ToRgbNeon (constPlane 9) (constPlane 8) (constPlane 7)
      (fun _ => 3) 0 4 2 1 1 5 =
      convertYuv420ToRgbNeon (constPlane 1) (constPlane 2) (constPlane 3)
        (fun _ => 3) 0 4 2 1 1 5 :=
  claim_C10_degenerate_geometry (constPlane 9) (constPlane 8) (constPlane 7)
    (constPlane 1) (constPlane 2) (constPlane 3) (fun _ => 3) 0 4 2 1 1 true
    (Or.inl (by norm_num)) 5

/-- C5: every output byte stays in [0,255] (given a byte-valued buffer, as
`uint8_t` storage guarantees), and the clamping is saturating in both paths:
values below 0 store as 0, values above 255 store as 255, in-range values are
stored exactly (never wrapped). -/
theorem claim_C5_range_saturation (yP uP vP : Plane) (buf : Buf) (w h ys uvs ps : ℤ)
    (hb : ∀ i, buf i ≤ 255) :
    (∀ i, convertYuv420ToRgbScalar yP uP vP buf w h ys uvs ps i ≤ 255) ∧
    (∀ i, convertYuv420ToRgbNeon yP uP vP buf w h ys uvs ps i ≤ 255) ∧
    (∀ (useNeon : Bool) (i : ℤ),
      convertYuv420ToRgb useNeon yP uP vP buf w h ys uvs ps i ≤ 255) ∧
    (∀ v : ℤ, v < 0 → clamp255 v = 0 ∧ vqmovun v = 0) ∧
    (∀ v : ℤ, 255 < v → clamp255 v = 255 ∧ vqmovun v = 255) ∧
    (∀ v : ℤ, 0 ≤ v → v ≤ 255 →
      ((clamp255 v : ℕ) : ℤ) = v ∧ ((vqmovun v : ℕ) : ℤ) = v) := by
  refine ⟨scalar_range yP uP vP buf w h ys uvs ps hb,
    neon_range yP uP vP buf w h ys uvs ps hb, ?_, ?_, ?_, ?_⟩
  · intro useNeon i
    cases useNeon
    · simpa [convertYuv420ToRgb] using scalar_range yP uP vP buf w h ys uvs ps hb i
    · simpa [convertYuv420ToRgb] using neon_range yP uP vP buf w h ys uvs ps hb i
  · intro v hv
    exact ⟨by unfold clamp255; split_ifs; all_goals omega,
      by unfold vqmovun; split_ifs; all_goals omega⟩
  · intro v hv
    exact ⟨by unfold clamp255; split_ifs; all_goals omega,
      by unfold vqmovun; split_ifs; all_goals omega⟩
  · intro v hv0 hv1
    exact ⟨by unfold clamp255; split_ifs; all_goals omega,
      by unfold vqmovun; split_ifs; all_goals omega⟩

/-- C5 witness: concrete instances of the range bound and the three
saturation behaviours. -/
theorem claim_C5_range_saturation_witness :
    convertYuv420ToRgbScalar (constPlane 255) (constPlane 0) (constPlane 255)
      (fun _ => 0) 4 3 4 2 1 5 ≤ 255 ∧
    convertYuv420ToRgbNeon (constPlane 255) (constPlane 0) (constPlane 255)
      (fun _ => 0) 4 3 4 2 1 5 ≤ 255 ∧
    clamp255 (-7) = 0 ∧ vqmovun (-7) = 0 ∧
    clamp255 300 = 255 ∧ vqmovun 300 = 255 ∧
    ((clamp255 200 : ℕ) : ℤ) = 200 ∧ ((vqmovun 200 : ℕ) : ℤ) = 200 := by
  have H := claim_C5_range_saturation (constPlane 255) (constPlane 0) (constPlane 255)
    (fun _ => 0) 4 3 4 2 1 (fun _ => by norm_num)
  exact ⟨H.1 5, H.2.1 5, (H.2.2.2.1 (-7) (by norm_num)).1, (H.2.2.2.1 (-7) (by norm_num)).2,
    (H.2.2.2.2.1 300 (by norm_num)).1, (H.2.2.2.2.1 300 (by norm_num)).2,
    (H.2.2.2.2.2 200 (by norm_num) (by norm_num)).1,
    (H.2.2.2.2.2 200 (by norm_num) (by norm_num)).2⟩

/-- C6: geometry coverage of the NEON path.  For every nonnegative geometry —
in particular widths not divisible by 8 — every byte of the output region
`[0, width*height*3)` is fully determined by the input planes: two runs from
arbitrary (different) initial buffers agree on the whole region, so the
full-lane loop plus the trailing cleanup leave no gaps. -/
theorem claim_C6_geometry_coverage (yP uP vP : Plane) (buf1 buf2 : Buf)
    (w h ys uvs ps : ℤ) (hw : 0 ≤ w) (hh : 0 ≤ h) (k : ℤ)
    (h0 : 0 ≤ k) (hk : k < w * h * 3) :
    convertYuv420ToRgbNeon yP uP vP buf1 w h ys uvs ps k =
      convertYuv420ToRgbNeon yP uP vP buf2 w h ys uvs ps k := by
  have hwW : ((w.toNat : ℕ) : ℤ) = w := by omega
  have hhH : ((h.toNat : ℕ) : ℤ) = h := by omega
  have hbound : ((3 * (w.toNat * h.toNat) : ℕ) : ℤ) = w * h * 3 := by
    push_cast
    rw [hwW, hhH]
    ring
  obtain ⟨row, col, c, h1, h2, h3, h4, hc5, heq⟩ :=
    pixel_decomp w h k h0 (by omega)
  subst heq
  rcases hc5 with hc | hc | hc <;> subst hc
  · rw [add_zero]
    rw [(neon_pixel_spec yP uP vP buf1 w h ys uvs ps row col h1 h2 h3 h4).1,
      (neon_pixel_spec yP uP vP buf2 w h ys uvs ps row col h1 h2 h3 h4).1]
  · rw [(neon_pixel_spec yP uP vP buf1 w h ys uvs ps row col h1 h2 h3 h4).2.1,
      (neon_pixel_spec yP uP vP buf2 w h ys uvs ps row col h1 h2 h3 h4).2.1]
  · rw [(neon_pixel_spec yP uP vP buf1 w h ys uvs ps row col h1 h2 h3 h4).2.2,
      (neon_pixel_spec yP uP vP buf2 w h ys uvs ps row col h1 h2 h3 h4).2.2]

/-- C6 witness: width 9 (not divisible by 8), byte 25 of the region is the
same whether the initial buffer was all-0 or all-7. -/
theorem claim_C6_geometry_coverage_witness :
    convertYuv420ToRgbNeon (constPlane 50) (constPlane 60) (constPlane 70)
      (fun _ => 0) 9 1 9 5 1 25 =
    convertYuv420ToRgbNeon (constPlane 50) (constPlane 60) (constPlane 70)
      (fun _ => 7) 9 1 9 5 1 25 :=
  claim_C6_geometry_coverage (constPlane 50) (constPlane 60) (constPlane 70)
    (fun _ => 0) (fun _ => 7) 9 1 9 5 1 (by norm_num) (by norm_num) 25
    (by norm_num) (by norm_num)

/-- C7: stride independence.  Two calls on the same logical image — equal
samples at every sampled index, same width, height and `uvPixelStride`, same
initial output buffer — produce byte-identical output even when the row
strides differ, for whichever path the dispatcher selects. -/
theorem claim_C7_stride_independence (yP1 uP1 vP1 yP2 uP2 vP2 : Plane) (buf : Buf)
    (w h ys1 uvs1 ys2 uvs2 ps : ℤ) (useNeon : Bool)
    (hY : ∀ row col : ℤ, 0 ≤ row → row < h → 0 ≤ col → col < w →
      yP1 (row * ys1 + col) = yP2 (row * ys2 + col))
    (hU : ∀ row col : ℤ, 0 ≤ row → row < h → 0 ≤ col → col < w →
      uP1 ((Int.tdiv row 2) * uvs1 + (Int.tdiv col 2) * ps) =
        uP2 ((Int.tdiv row 2) * uvs2 + (Int.tdiv col 2) * ps))
    (hV : ∀ row col : ℤ, 0 ≤ row → row < h → 0 ≤ col → col < w →
      vP1 ((Int.tdiv row 2) * uvs1 + (Int.tdiv col 2) * ps) =
        vP2 ((Int.tdiv row 2) * uvs2 + (Int.tdiv col 2) * ps))
    (i : ℤ) :
    convertYuv420ToRgb useNeon yP1 uP1 vP1 buf w h ys1 uvs1 ps i =
      convertYuv420ToRgb useNeon yP2 uP2 vP2 buf w h ys2 uvs2 ps i := by
  by_cases hin : 0 ≤ i ∧ i < ((3 * (w.toNat * h.toNat) : ℕ) : ℤ)
  · obtain ⟨row, col, c, h1, h2, h3, h4, hc5, heq⟩ :=
      pixel_decomp w h i hin.1 hin.2
    subst heq
    cases useNeon
    · simp only [convertYuv420ToRgb, Bool.false_eq_true, if_false]
      obtain ⟨s1, s2, s3⟩ := scalar_pixel_spec yP1 uP1 vP1 buf w h ys1 uvs1 ps
        row col h1 h2 h3 h4
      obtain ⟨t1, t2, t3⟩ := scalar_pixel_spec yP2 uP2 vP2 buf w h ys2 uvs2 ps
        row col h1 h2 h3 h4
      rw [hY row col h1 h2 h3 h4] at s1 s2 s3
      rw [hU row col h1 h2 h3 h4] at s2 s3
      rw [hV row col h1 h2 h3 h4] at s1 s2
      rcases hc5 with hc | hc | hc <;> subst hc
      · rw [add_zero, s1, t1]
      · rw [s2, t2]
      · rw [s3, t3]
    · simp only [convertYuv420ToRgb, if_true]
      obtain ⟨s1, s2, s3⟩ := neon_pixel_spec yP1 uP1 vP1 buf w h ys1 uvs1 ps
        row col h1 h2 h3 h4
      obtain ⟨t1, t2, t3⟩ := neon_pixel_spec yP2 uP2 vP2 buf w h ys2 uvs2 ps
        row col h1 h2 h3 h4
      rw [hY row col h1 h2 h3 h4] at s1 s2 s3
      rw [hU row col h1 h2 h3 h4] at s2 s3
      rw [hV row col h1 h2 h3 h4] at s1 s2
      rcases hc5 with hc | hc | hc <;> subst hc
      · rw [add_zero, s1, t1]
      · rw [s2, t2]
      · rw [s3, t3]
  · have hout : i < 0 ∨ ((3 * (w.toNat * h.toNat) : ℕ) : ℤ) ≤ i := by omega
    cases useNeon
    · simp only [convertYuv420ToRgb, Bool.false_eq_true, if_false]
      rw [scalar_frame_spec yP1 uP1 vP1 buf w h ys1 uvs1 ps i hout,
        scalar_frame_spec yP2 uP2 vP2 buf w h ys2 uvs2 ps i hout]
    · simp only [convertYuv420ToRgb, if_true]
      rw [neon_frame_spec yP1 uP1 vP1 buf w h ys1 uvs1 ps i hout,
        neon_frame_spec yP2 uP2 vP2 buf w h ys2 uvs2 ps i hout]

/-- C7 witness: constant planes are stride-independent: row strides 4 vs 9,
chroma row strides 2 vs 5, identical output byte 3. -/
theorem claim_C7_stride_independence_witness :
    convertYuv420ToRgb true (constPlane 11) (constPlane 22) (constPlane 33)
      (fun _ => 0) 2 2 4 2 1 3 =
    convertYuv420ToRgb true (constPlane 11) (constPlane 22) (constPlane 33)
      (fun _ => 0) 2 2 9 5 1 3 :=
  claim_C7_stride_independence (constPlane 11) (constPlane 22) (constPlane 33)
    (constPlane 11) (constPlane 22) (constPlane 33) (fun _ => 0) 2 2 4 2 9 5 1 true
    (fun _ _ _ _ _ _ => rfl) (fun _ _ _ _ _ _ => rfl) (fun _ _ _ _ _ _ => rfl) 3

/-- C9: the JNI entry point returns null (no allocation, no conversion) as
soon as any plane address is null; with all three addresses valid it returns
the `width*height*3`-byte conversion result. -/
theorem claim_C9_null_handling (useNeon : Bool) (yBuf uBuf vBuf : Option Plane)
    (w h ys uvs ps : ℤ) :
    ((yBuf = none ∨ uBuf = none ∨ vBuf = none) →
      convertYuvToRgb useNeon yBuf uBuf vBuf w h ys uvs ps = none) ∧
    (∀ yP uP vP : Plane, yBuf = some yP → uBuf = some uP → vBuf = some vP →
      ∃ l : List ℕ, convertYuvToRgb useNeon yBuf uBuf vBuf w h ys uvs ps = some l ∧
        l.length = (w * h * 3).toNat ∧
        l = (List.range (w * h * 3).toNat).map (fun (k : ℕ) =>
          convertYuv420ToRgb useNeon yP uP vP (fun _ => 0) w h ys uvs ps (k : ℤ))) := by
  constructor
  · rintro (rfl | rfl | rfl)
    · rfl
    · cases yBuf <;> rfl
    · cases yBuf <;> cases uBuf <;> rfl
  · rintro yP uP vP rfl rfl rfl
    exact ⟨_, rfl, by simp, rfl⟩

/-- C9 witness: a null Y plane yields a null result; three valid planes on a
2×2 geometry yield a 12-byte result. -/
theorem claim_C9_null_handling_witness :
    convertYuvToRgb true none (some (constPlane 1)) (some (constPlane 2)) 2 2 2 1 1 =
      none ∧
    ∃ l : List ℕ, convertYuvToRgb true (some (constPlane 3)) (some (constPlane 1))
        (some (constPlane 2)) 2 2 2 1 1 = some l ∧
      l.length = ((2 : ℤ) * 2 * 3).toNat ∧
      l = (List.range ((2 : ℤ) * 2 * 3).toNat).map (fun (k : ℕ) =>
        convertYuv420ToRgb true (constPlane 3) (constPlane 1) (constPlane 2)
          (fun _ => 0) 2 2 2 1 1 (k : ℤ)) :=
  ⟨(claim_C9_null_handling true none (some (constPlane 1)) (some (constPlane 2))
      2 2 2 1 1).1 (Or.inl rfl),
    (claim_C9_null_handling true (some (constPlane 3)) (some (constPlane 1))
      (some (constPlane 2)) 2 2 2 1 1).2 (constPlane 3) (constPlane 1) (constPlane 2)
      rfl rfl rfl⟩
